import Mathlib

/-!
Verification of the `simpleuuid` identifier codec (uuid.go).

Shallow embedding conventions:
* a Go `[]byte` is a `List Nat` whose entries are below 256 (`ValidUUID`
  states the 16-byte, byte-valued invariant of an identifier);
* a Go `string` is a `List Char`;
* `time.Time` values enter and leave the codec only through their
  `UnixNano` value, so a wall-clock instant is its signed 64-bit
  nanosecond count since the Unix epoch (an `Int` constrained by
  `int64Range`);
* Go's signed 64-bit arithmetic is `Int` arithmetic reduced by `wrap64`
  where the source can overflow; Go's `/` and `%` on int64 truncate
  toward zero and are modelled by `Int.tdiv` / `Int.tmod`;
* fallible constructors return `Except GoError`; the two error values of
  the package and the two errors of `encoding/hex` are the `GoError`
  constructors.
-/

namespace Simpleuuid

/-- Constant `size` (uuid.go:47): identifiers are exactly 16 bytes. -/
def size : Nat := 16

/-- Constant `gregorianEpoch` (uuid.go:46): number of 100ns intervals
between the Gregorian epoch and the Unix epoch. -/
def gregorianEpoch : Int := 0x01B21DD213814000

/-- Constant `variant` (uuid.go:48). -/
def variant : Nat := 0x8000

/-- Constant `version1` (uuid.go:49). -/
def version1 : Nat := 0x1000

/-- Error values observable from the package: `parseErrorLength` and
`saltErrorLength` (package-level sentinels), and the two errors of
`encoding/hex.Decode`: `hex.ErrLength` for an odd-length input and
`hex.InvalidByteError(b)` for a non-hex character. -/
inductive GoError where
  | parseErrorLength
  | saltErrorLength
  | hexErrLength
  | hexInvalidByte (b : Char)
  deriving DecidableEq

/-- Reduction of an unbounded `Int` into the signed 64-bit range, as Go's
two's-complement int64 arithmetic does on overflow. -/
def wrap64 (x : Int) : Int := (x + 2 ^ 63) % 2 ^ 64 - 2 ^ 63

/-- Membership in the signed 64-bit range: the domain of Go's `int64`. -/
def int64Range (x : Int) : Prop := -(2 ^ 63) ≤ x ∧ x < 2 ^ 63

instance (x : Int) : Decidable (int64Range x) := by
  unfold int64Range; infer_instance

/-- Two's-complement bit pattern of an int64 value, as a `Nat`: the view
under which Go's `&`, `>>` (of nonnegative shift results) and byte stores
operate. -/
def bits64 (x : Int) : Nat := (x % 2 ^ 64).toNat

/-- `fromUnixNano` (uuid.go:237-239): `uuidTime((ns / 100) + gregorianEpoch)`.
Go `/` on int64 truncates toward zero. -/
def fromUnixNano (ns : Int) : Int := wrap64 (Int.tdiv ns 100 + gregorianEpoch)

/-- `toUnixNano` (uuid.go:241-243): `int64((t - gregorianEpoch) * 100)`,
with int64 multiplication (which can wrap). -/
def toUnixNano (t : Int) : Int := wrap64 ((t - gregorianEpoch) * 100)

/-- `binary.BigEndian.PutUint16`: `b[0] = byte(v >> 8); b[1] = byte(v)`. -/
def putUint16 (v : Nat) : List Nat := [v >>> 8 % 256, v % 256]

/-- `binary.BigEndian.PutUint32`: big-endian byte stores of a uint32. -/
def putUint32 (v : Nat) : List Nat :=
  [v >>> 24 % 256, v >>> 16 % 256, v >>> 8 % 256, v % 256]

/-- `binary.BigEndian.Uint16(b)` = `uint16(b[1]) | uint16(b[0])<<8`. -/
def beUint16 (b : List Nat) : Nat := b.getD 1 0 ||| b.getD 0 0 <<< 8

/-- `binary.BigEndian.Uint32(b)` =
`uint32(b[3]) | uint32(b[2])<<8 | uint32(b[1])<<16 | uint32(b[0])<<24`. -/
def beUint32 (b : List Nat) : Nat :=
  b.getD 3 0 ||| b.getD 2 0 <<< 8 ||| b.getD 1 0 <<< 16 ||| b.getD 0 0 <<< 24

/-- The 16-byte, byte-valued invariant every constructed identifier
satisfies. -/
def ValidUUID (u : List Nat) : Prop := u.length = 16 ∧ ∀ b ∈ u, b < 256

instance (u : List Nat) : Decidable (ValidUUID u) := by
  unfold ValidUUID; infer_instance

/-- `NewBytes` (uuid.go:86-96): exactly 16 bytes or `parseErrorLength`;
on success the identifier is a copy of `bytes[0:size]`. -/
def NewBytes (bs : List Nat) : Except GoError (List Nat) :=
  if bs.length ≠ size then Except.error GoError.parseErrorLength
  else Except.ok (bs.take size)

/-- Timestamp bytes 0-7 written by `NewTime` (uuid.go:105-107):
`PutUint32(bytes[0:4], uint32(ts&0xffffffff))`,
`PutUint16(bytes[4:6], uint16((ts>>32)&0xffff))`,
`PutUint16(bytes[6:8], uint16((ts>>48)&0x0fff)|version1)`,
operating on the two's-complement pattern of `ts = fromUnixNano(ns)`. -/
def timeBytes (ns : Int) : List Nat :=
  let ts := bits64 (fromUnixNano ns)
  putUint32 (ts &&& 0xffffffff)
    ++ putUint16 (ts >>> 32 &&& 0xffff)
    ++ putUint16 (ts >>> 48 &&& 0x0fff ||| version1)

/-- `NewTime` (uuid.go:100-117).  The three draws of `rand` (13-bit clock,
16-bit and 32-bit node halves) are nondeterministic inputs of the code and
are passed here as the arguments `r13 r16 r32`:
`PutUint16(bytes[8:10], uint16(rand(max13bit)|variant))`,
`PutUint16(bytes[10:12], uint16(rand(max16bit)))`,
`PutUint32(bytes[12:16], uint32(rand(max32bit)))`. -/
def NewTime (ns : Int) (r13 r16 r32 : Nat) : List Nat :=
  timeBytes ns
    ++ putUint16 (r13 ||| variant)
    ++ putUint16 r16
    ++ putUint32 r32

/-- `strings.Replace(s, "-", "", -1)` (uuid.go:124). -/
def stripDashes (s : List Char) : List Char := s.filter (fun c => c != '-')

/-- `hex.DecodedLen(n)` = `n / 2`. -/
def decodedLen (n : Nat) : Nat := n / 2

/-- `fromHexChar` of `encoding/hex`: value of one hex digit, or failure. -/
def fromHexChar (c : Char) : Option Nat :=
  if '0' ≤ c ∧ c ≤ '9' then some (c.toNat - 48)
  else if 'a' ≤ c ∧ c ≤ 'f' then some (c.toNat - 97 + 10)
  else if 'A' ≤ c ∧ c ≤ 'F' then some (c.toNat - 65 + 10)
  else none

/-- `hex.DecodeString`: decodes pairs left to right, failing on the first
invalid character with `InvalidByteError`; a trailing odd character fails
with `InvalidByteError` if it is not hex, with `ErrLength` otherwise. -/
def hexDecode : List Char → Except GoError (List Nat)
  | [] => Except.ok []
  | [c] =>
    match fromHexChar c with
    | none => Except.error (GoError.hexInvalidByte c)
    | some _ => Except.error GoError.hexErrLength
  | p :: q :: rest =>
    match fromHexChar p with
    | none => Except.error (GoError.hexInvalidByte p)
    | some a =>
      match fromHexChar q with
      | none => Except.error (GoError.hexInvalidByte q)
      | some b =>
        match hexDecode rest with
        | Except.ok ds => Except.ok ((a * 16 + b) :: ds)
        | Except.error e => Except.error e

/-- `NewString` (uuid.go:123-137): strip hyphens, require
`hex.DecodedLen(len) == size`, then hex-decode. -/
def NewString (s : List Char) : Except GoError (List Nat) :=
  let normalized := stripDashes s
  if decodedLen normalized.length ≠ size then Except.error GoError.parseErrorLength
  else hexDecode normalized

/-- `Nanoseconds` (uuid.go:148-154): reassemble the 60-bit uuid time from
`Uint32(me[0:4])`, `Uint16(me[4:6])`, `Uint16(me[6:8]) & 0x0fff` and apply
`toUnixNano`. -/
def Nanoseconds (u : List Nat) : Int :=
  let time_low := beUint32 (u.take 4)
  let time_mid := beUint16 ((u.drop 4).take 2)
  let time_hi := beUint16 ((u.drop 6).take 2) &&& 0x0fff
  toUnixNano ((time_low : Int) + (time_mid : Int) * 2 ^ 32 + (time_hi : Int) * 2 ^ 48)

/-- `Time` (uuid.go:140-143) returns `time.Unix(nsec/1e9, nsec%1e9).UTC()`;
the instant is modelled by its `UnixNano` value, `sec * 1e9 + nsec`, with
Go's truncating int64 division and remainder. -/
def timeUnixNano (u : List Nat) : Int :=
  let nsec := Nanoseconds u
  Int.tdiv nsec 1000000000 * 1000000000 + Int.tmod nsec 1000000000

/-- Lowercase hex digit of a value below 16, per the `encoding/hex` table
`"0123456789abcdef"`. -/
def hexDigit (n : Nat) : Char :=
  if n < 10 then Char.ofNat (48 + n) else Char.ofNat (87 + n)

/-- One byte as two lowercase hex characters (`hex.EncodeToString` step). -/
def encodeByte (b : Nat) : List Char := [hexDigit (b / 16), hexDigit (b % 16)]

/-- `hex.EncodeToString`. -/
def hexEncode (l : List Nat) : List Char := (l.map encodeByte).flatten

/-- `String` (uuid.go:191-197): hex of `me[0:4]`, `me[4:6]`, `me[6:8]`,
`me[8:10]`, `me[10:16]` joined by hyphens.  Named `uuidString` because
`String` is taken by the Lean prelude. -/
def uuidString (u : List Nat) : List Char :=
  hexEncode (u.take 4) ++ ['-']
    ++ hexEncode ((u.drop 4).take 2) ++ ['-']
    ++ hexEncode ((u.drop 6).take 2) ++ ['-']
    ++ hexEncode ((u.drop 8).take 2) ++ ['-']
    ++ hexEncode ((u.drop 10).take 6)

/-- `bytes.Compare`: lexicographic comparison of byte slices, unsigned,
result in {-1, 0, 1}. -/
def byteCompare : List Nat → List Nat → Int
  | [], [] => 0
  | [], _ :: _ => -1
  | _ :: _, [] => 1
  | a :: as, b :: bs =>
    if a < b then -1 else if b < a then 1 else byteCompare as bs

/-- `Compare` (uuid.go:200-209): times first, then `bytes.Compare` of the
suffixes from offset 8. -/
def Compare (me other : List Nat) : Int :=
  let nsMe := Nanoseconds me
  let nsOther := Nanoseconds other
  if nsMe > nsOther then 1
  else if nsMe < nsOther then -1
  else byteCompare (me.drop 8) (other.drop 8)

/-- `Bytes` (uuid.go:212-214): the underlying byte slice itself. -/
def Bytes (u : List Nat) : List Nat := u

/-- Outcome of a Go call that may return normally, return an error, or
panic (an uncatchable fault such as a slice-bounds violation). -/
inductive GoOutcome (α : Type) where
  | ok (a : α)
  | err (e : GoError)
  | panicked
  deriving DecidableEq

/-- `UnmarshalJSON` (uuid.go:217-220): `NewString(string(b[1:len(b)-1]))`.
The slice expression `b[1:len(b)-1]` panics whenever `len(b) < 2`
(slice bounds out of range); otherwise it is the text without its first
and last byte. -/
def UnmarshalJSON (b : List Char) : GoOutcome (List Nat) :=
  if b.length < 2 then GoOutcome.panicked
  else
    match NewString ((b.drop 1).take (b.length - 2)) with
    | Except.ok u => GoOutcome.ok u
    | Except.error e => GoOutcome.err e

/-- Modelled from the spec: `NewTimeSalt` is called by the repository's
tests (uuid_test.go:62-87) but its definition is not among the provided
sources.  Per spec sections 4.3 and 9: the timestamp bytes are encoded
exactly as in `NewTime`; the salt must be exactly 8 bytes, any other
length failing with the salt-length error; and the clock-sequence and
node bytes (offsets 8-15) are derived deterministically from the salt
alone — the spec leaves the keyed expansion open, so this model keeps
13 bits of the salt's first two bytes OR'd with the variant marker as
the clock field and the salt's remaining six bytes as the node field. -/
def NewTimeSalt (ns : Int) (salt : List Nat) : Except GoError (List Nat) :=
  if salt.length ≠ 8 then Except.error GoError.saltErrorLength
  else Except.ok (timeBytes ns
    ++ putUint16 (beUint16 (salt.take 2) &&& 0x1fff ||| variant)
    ++ (salt.drop 2).take 6)

/-- Comparison exactly as the spec words it (section 4.5): primary key is
the decoded `Nanoseconds()` ascending, ties broken by unsigned byte-wise
comparison of bytes 8 through 15. -/
def compareSpec (a b : List Nat) : Int :=
  if Nanoseconds a < Nanoseconds b then -1
  else if Nanoseconds b < Nanoseconds a then 1
  else byteCompare ((a.drop 8).take 8) ((b.drop 8).take 8)

end Simpleuuid

deriving instance DecidableEq for Except

namespace Simpleuuid

/-! Arithmetic facts about Go's truncating division and remainder. -/

theorem tmod_nonpos (a b : Int) (h : a ≤ 0) : a.tmod b ≤ 0 := by
  cases a with
  | ofNat m =>
    have hm : m = 0 := by simp only [Int.ofNat_eq_coe] at h; omega
    subst hm; simp
  | negSucc m =>
    cases b with
    | ofNat n =>
      have he : (Int.negSucc m).tmod (Int.ofNat n) = -(Int.ofNat (m.succ % n)) := rfl
      rw [he]; simp only [Int.ofNat_eq_coe]; omega
    | negSucc n =>
      have he : (Int.negSucc m).tmod (Int.negSucc n) = -(Int.ofNat (m.succ % n.succ)) := rfl
      rw [he]; simp only [Int.ofNat_eq_coe]; omega

theorem neg_lt_tmod (a : Int) {b : Int} (hb : 0 < b) : -b < a.tmod b := by
  cases a with
  | ofNat m =>
    have h1 := Int.tmod_nonneg b (Int.ofNat_nonneg m)
    simp only [Int.ofNat_eq_coe] at h1 ⊢
    omega
  | negSucc m =>
    cases b with
    | ofNat n =>
      have hn : 0 < n := by simp only [Int.ofNat_eq_coe] at hb; omega
      have he : (Int.negSucc m).tmod (Int.ofNat n) = -(Int.ofNat (m.succ % n)) := rfl
      rw [he]
      have h2 := Nat.mod_lt m.succ hn
      simp only [Int.ofNat_eq_coe] at *
      omega
    | negSucc n =>
      exact absurd hb (by exact Int.not_lt.mpr (Int.negSucc_lt_zero n).le)

theorem sign_tmod (a : Int) (b : Int) :
    (0 ≤ a ∧ 0 ≤ a.tmod b) ∨ (a < 0 ∧ a.tmod b ≤ 0) := by
  rcases le_or_lt 0 a with h | h
  · exact Or.inl ⟨h, Int.tmod_nonneg b h⟩
  · exact Or.inr ⟨h, tmod_nonpos a b h.le⟩

/-! Bridges between bitwise operations and arithmetic. -/

theorem two_pow_mul_lor (k a b : Nat) (hb : b < 2 ^ k) :
    2 ^ k * a ||| b = 2 ^ k * a + b := by
  apply Nat.eq_of_testBit_eq
  intro i
  have h0 : (2 ^ k * a).testBit i = if i < k then false else a.testBit (i - k) := by
    have h := Nat.testBit_mul_pow_two_add (i := k) a (b := 0) (Nat.two_pow_pos k) i
    simpa using h
  rw [Nat.testBit_lor, Nat.testBit_mul_pow_two_add a hb i, h0]
  rcases lt_or_le i k with h | h
  · simp [h]
  · have hb0 : b.testBit i = false :=
      Nat.testBit_eq_false_of_lt (lt_of_lt_of_le hb (Nat.pow_le_pow_right (by norm_num) h))
    simp [hb0, Nat.not_lt.mpr h]

theorem mul_two_pow_lor (a b k : Nat) (hb : b < 2 ^ k) :
    a * 2 ^ k ||| b = a * 2 ^ k + b := by
  rw [mul_comm a (2 ^ k)]
  exact two_pow_mul_lor k a b hb

theorem lor_two_pow (b k : Nat) (hb : b < 2 ^ k) : b ||| 2 ^ k = b + 2 ^ k := by
  rw [Nat.lor_comm]
  have h := two_pow_mul_lor k 1 b hb
  simpa [Nat.add_comm] using h

theorem land_two_pow_sub_one (x k : Nat) : x &&& (2 ^ k - 1) = x % 2 ^ k := by
  apply Nat.eq_of_testBit_eq
  intro i
  rw [Nat.testBit_land, Nat.testBit_two_pow_sub_one, Nat.testBit_mod_two_pow]
  rcases lt_or_le i k with h | h <;> simp [h, Bool.and_comm]

theorem wrap64_eq_self {x : Int} (h : int64Range x) : wrap64 x = x := by
  unfold wrap64
  unfold int64Range at h
  omega

/-! Byte-order round trips. -/

theorem beUint16_putUint16 (v : Nat) : beUint16 (putUint16 v) = v % 2 ^ 16 := by
  simp only [beUint16, putUint16, List.getD_cons_succ, List.getD_cons_zero,
    Nat.shiftLeft_eq, Nat.shiftRight_eq_div_pow]
  rw [Nat.lor_comm, mul_two_pow_lor _ _ 8 (by omega)]
  omega

theorem beUint32_putUint32 (v : Nat) : beUint32 (putUint32 v) = v % 2 ^ 32 := by
  simp only [beUint32, putUint32, List.getD_cons_succ, List.getD_cons_zero,
    Nat.shiftLeft_eq, Nat.shiftRight_eq_div_pow]
  rw [Nat.lor_comm (v % 256), mul_two_pow_lor _ _ 8 (by omega)]
  rw [Nat.lor_comm _ (v / 2 ^ 16 % 256 * 2 ^ 16), mul_two_pow_lor _ _ 16 (by omega)]
  rw [Nat.lor_comm _ (v / 2 ^ 24 % 256 * 2 ^ 24), mul_two_pow_lor _ _ 24 (by omega)]
  omega

/-! The time transform: encoding into and decoding out of the byte layout. -/

theorem timeUnixNano_eq (u : List Nat) : timeUnixNano u = Nanoseconds u := by
  show Int.tdiv (Nanoseconds u) 1000000000 * 1000000000
      + Int.tmod (Nanoseconds u) 1000000000 = Nanoseconds u
  have h := Int.tdiv_add_tmod (Nanoseconds u) 1000000000
  omega

theorem fromUnixNano_eq (ns : Int) (h : int64Range ns) :
    fromUnixNano ns = Int.tdiv ns 100 + gregorianEpoch := by
  have hid := Int.tdiv_add_tmod ns 100
  have hlt := Int.tmod_lt_of_pos ns (b := 100) (by norm_num)
  have hgt := neg_lt_tmod ns (b := 100) (by norm_num)
  have hs := sign_tmod ns 100
  unfold fromUnixNano
  apply wrap64_eq_self
  unfold int64Range at *
  unfold gregorianEpoch
  omega

theorem tdiv100_mul_range (ns : Int) (h : int64Range ns) :
    int64Range (Int.tdiv ns 100 * 100) := by
  have hid := Int.tdiv_add_tmod ns 100
  have hlt := Int.tmod_lt_of_pos ns (b := 100) (by norm_num)
  have hgt := neg_lt_tmod ns (b := 100) (by norm_num)
  have hs := sign_tmod ns 100
  unfold int64Range at *
  omega

theorem bits64_spec (ns : Int) (h : int64Range ns) :
    ((bits64 (fromUnixNano ns) : Nat) : Int) = Int.tdiv ns 100 + gregorianEpoch
      ∧ bits64 (fromUnixNano ns) < 2 ^ 60 := by
  have hid := Int.tdiv_add_tmod ns 100
  have hlt := Int.tmod_lt_of_pos ns (b := 100) (by norm_num)
  have hgt := neg_lt_tmod ns (b := 100) (by norm_num)
  have hs := sign_tmod ns 100
  rw [bits64, fromUnixNano_eq ns h]
  unfold int64Range at h
  unfold gregorianEpoch at *
  constructor
  · omega
  · omega

theorem fields_of_encoding (v w z : Nat) (tail : List Nat) :
    (putUint32 v ++ (putUint16 w ++ (putUint16 z ++ tail))).take 4 = putUint32 v
    ∧ ((putUint32 v ++ (putUint16 w ++ (putUint16 z ++ tail))).drop 4).take 2 = putUint16 w
    ∧ ((putUint32 v ++ (putUint16 w ++ (putUint16 z ++ tail))).drop 6).take 2 = putUint16 z := by
  refine ⟨?_, ?_, ?_⟩ <;> simp [putUint32, putUint16]

theorem Nanoseconds_timeBytes (ns : Int) (h : int64Range ns) (tail : List Nat) :
    Nanoseconds (timeBytes ns ++ tail) = Int.tdiv ns 100 * 100 := by
  obtain ⟨hT, hT60⟩ := bits64_spec ns h
  set T := bits64 (fromUnixNano ns) with hTdef
  have htb : timeBytes ns ++ tail =
      putUint32 (T &&& 0xffffffff)
        ++ (putUint16 (T >>> 32 &&& 0xffff)
        ++ (putUint16 (T >>> 48 &&& 0x0fff ||| version1) ++ tail)) := by
    simp [timeBytes, List.append_assoc, hTdef]
  rw [htb]
  obtain ⟨h1, h2, h3⟩ := fields_of_encoding (T &&& 0xffffffff) (T >>> 32 &&& 0xffff)
    (T >>> 48 &&& 0x0fff ||| version1) tail
  unfold Nanoseconds
  rw [h1, h2, h3, beUint32_putUint32, beUint16_putUint16, beUint16_putUint16]
  have e1 : (T &&& 0xffffffff) % 2 ^ 32 = T % 2 ^ 32 := by
    rw [show (0xffffffff : Nat) = 2 ^ 32 - 1 from by norm_num, land_two_pow_sub_one]
    omega
  have e2 : (T >>> 32 &&& 0xffff) % 2 ^ 16 = T / 2 ^ 32 % 2 ^ 16 := by
    rw [Nat.shiftRight_eq_div_pow,
      show (0xffff : Nat) = 2 ^ 16 - 1 from by norm_num, land_two_pow_sub_one]
    omega
  have e3 : ((T >>> 48 &&& 0x0fff ||| version1) % 2 ^ 16) &&& 0x0fff = T / 2 ^ 48 % 2 ^ 12 := by
    rw [Nat.shiftRight_eq_div_pow,
      show (0x0fff : Nat) = 2 ^ 12 - 1 from by norm_num, land_two_pow_sub_one,
      land_two_pow_sub_one,
      show version1 = 2 ^ 12 from by unfold version1; norm_num,
      lor_two_pow _ 12 (by omega)]
    omega
  rw [e1, e2, e3]
  show toUnixNano (((T % 2 ^ 32 : Nat) : Int) + ((T / 2 ^ 32 % 2 ^ 16 : Nat) : Int) * 2 ^ 32
      + ((T / 2 ^ 48 % 2 ^ 12 : Nat) : Int) * 2 ^ 48) = Int.tdiv ns 100 * 100
  have hsum : ((T % 2 ^ 32 : Nat) : Int) + ((T / 2 ^ 32 % 2 ^ 16 : Nat) : Int) * 2 ^ 32
      + ((T / 2 ^ 48 % 2 ^ 12 : Nat) : Int) * 2 ^ 48 = (T : Int) := by
    omega
  rw [hsum, hT]
  show wrap64 ((Int.tdiv ns 100 + gregorianEpoch - gregorianEpoch) * 100) = Int.tdiv ns 100 * 100
  have harg : (Int.tdiv ns 100 + gregorianEpoch - gregorianEpoch) * 100 = Int.tdiv ns 100 * 100 := by
    ring
  rw [harg, wrap64_eq_self (tdiv100_mul_range ns h)]

/-! Unfolding equations for definitions written with local bindings. -/

theorem Compare_def (a b : List Nat) : Compare a b =
    if Nanoseconds a > Nanoseconds b then 1
    else if Nanoseconds a < Nanoseconds b then -1
    else byteCompare (a.drop 8) (b.drop 8) := rfl

theorem NewString_def (s : List Char) : NewString s =
    if decodedLen (stripDashes s).length ≠ size then Except.error GoError.parseErrorLength
    else hexDecode (stripDashes s) := rfl

theorem Nanoseconds_NewTime (ns : Int) (h : int64Range ns) (r13 r16 r32 : Nat) :
    Nanoseconds (NewTime ns r13 r16 r32) = Int.tdiv ns 100 * 100 := by
  unfold NewTime
  exact Nanoseconds_timeBytes ns h _

/-! `bytes.Compare` is a total comparator. -/

theorem byteCompare_self (l : List Nat) : byteCompare l l = 0 := by
  induction l with
  | nil => rfl
  | cons x xs ih => simp [byteCompare, ih]

theorem byteCompare_anti (a : List Nat) : ∀ b, byteCompare b a = -byteCompare a b := by
  induction a with
  | nil => intro b; cases b <;> simp [byteCompare]
  | cons x xs ih =>
    intro b
    cases b with
    | nil => simp [byteCompare]
    | cons y ys =>
      simp only [byteCompare]
      split_ifs <;> first | omega | exact ih ys

theorem byteCompare_trans {b : List Nat} (a : List Nat) : ∀ {c : List Nat},
    byteCompare a b ≤ 0 → byteCompare b c ≤ 0 → byteCompare a c ≤ 0 := by
  induction a generalizing b with
  | nil => intro c _ _; cases c <;> simp [byteCompare]
  | cons x xs ih =>
    intro c h1 h2
    cases b with
    | nil => simp [byteCompare] at h1
    | cons y ys =>
      cases c with
      | nil => simp [byteCompare] at h2
      | cons z zs =>
        simp only [byteCompare] at h1 h2 ⊢
        split_ifs at h1 h2 ⊢ <;> first | omega | exact ih h1 h2

theorem byteCompare_range (a : List Nat) : ∀ b,
    byteCompare a b = -1 ∨ byteCompare a b = 0 ∨ byteCompare a b = 1 := by
  induction a with
  | nil => intro b; cases b <;> simp [byteCompare]
  | cons x xs ih =>
    intro b
    cases b with
    | nil => simp [byteCompare]
    | cons y ys =>
      simp only [byteCompare]
      split_ifs <;> first | omega | exact ih ys

theorem Compare_refl (a : List Nat) : Compare a a = 0 := by
  rw [Compare_def, if_neg (by omega), if_neg (by omega)]
  exact byteCompare_self _

theorem Compare_antisym (a b : List Nat) : Compare b a = -Compare a b := by
  rw [Compare_def, Compare_def]
  split_ifs <;> first | omega | exact byteCompare_anti _ _

theorem Compare_trans_le {a b c : List Nat} (h1 : Compare a b ≤ 0) (h2 : Compare b c ≤ 0) :
    Compare a c ≤ 0 := by
  rw [Compare_def] at h1 h2 ⊢
  split_ifs at h1 h2 ⊢ <;> first | omega | exact byteCompare_trans _ h1 h2

theorem Compare_eq_spec (a b : List Nat) (ha : ValidUUID a) (hb : ValidUUID b) :
    Compare a b = compareSpec a b := by
  rw [Compare_def]
  unfold compareSpec
  have hta : (a.drop 8).take 8 = a.drop 8 := List.take_of_length_le (by simp [ha.1])
  have htb : (b.drop 8).take 8 = b.drop 8 := List.take_of_length_le (by simp [hb.1])
  rw [hta, htb]
  split_ifs <;> omega

theorem Compare_range (a b : List Nat) :
    Compare a b = -1 ∨ Compare a b = 0 ∨ Compare a b = 1 := by
  rw [Compare_def]
  split_ifs <;> first | omega | exact byteCompare_range _ _

/-! Facts about the shared timestamp prefix. -/

theorem drop8_timeBytes_append (ns : Int) (tail : List Nat) :
    (timeBytes ns ++ tail).drop 8 = tail := by
  simp [timeBytes, putUint32, putUint16]

theorem timeBytes_congr {ns1 ns2 : Int} (h1 : int64Range ns1) (h2 : int64Range ns2)
    (h : Int.tdiv ns1 100 = Int.tdiv ns2 100) : timeBytes ns1 = timeBytes ns2 := by
  have hf : fromUnixNano ns1 = fromUnixNano ns2 := by
    rw [fromUnixNano_eq ns1 h1, fromUnixNano_eq ns2 h2, h]
  unfold timeBytes
  rw [hf]

end Simpleuuid

namespace Simpleuuid

/-! Hex text round trips and the shape of `hex.DecodeString` results. -/

theorem fromHexChar_hexDigit (x : Nat) (h : x < 16) : fromHexChar (hexDigit x) = some x := by
  interval_cases x <;> decide

theorem hexDigit_ne_dash (x : Nat) (h : x < 16) : hexDigit x ≠ '-' := by
  interval_cases x <;> decide

theorem hexEncode_cons (b : Nat) (l : List Nat) :
    hexEncode (b :: l) = hexDigit (b / 16) :: hexDigit (b % 16) :: hexEncode l := by
  simp [hexEncode, encodeByte]

theorem hexEncode_append (a b : List Nat) :
    hexEncode (a ++ b) = hexEncode a ++ hexEncode b := by
  simp [hexEncode]

theorem hexEncode_length (l : List Nat) : (hexEncode l).length = 2 * l.length := by
  induction l with
  | nil => rfl
  | cons b rest ih => rw [hexEncode_cons]; simp [ih]; omega

theorem stripDashes_append (a b : List Char) :
    stripDashes (a ++ b) = stripDashes a ++ stripDashes b := by
  simp [stripDashes]

theorem stripDashes_dash : stripDashes ['-'] = [] := rfl

theorem stripDashes_idem (s : List Char) : stripDashes (stripDashes s) = stripDashes s := by
  simp [stripDashes, List.filter_filter]

theorem stripDashes_hexEncode (l : List Nat) (h : ∀ b ∈ l, b < 256) :
    stripDashes (hexEncode l) = hexEncode l := by
  induction l with
  | nil => rfl
  | cons b rest ih =>
    have hb := h b (by simp)
    have h1 : hexDigit (b / 16) ≠ '-' := hexDigit_ne_dash _ (by omega)
    have h2 : hexDigit (b % 16) ≠ '-' := hexDigit_ne_dash _ (by omega)
    have ih2 := ih (fun x hx => h x (by simp [hx]))
    rw [hexEncode_cons]
    unfold stripDashes at ih2 ⊢
    simp [List.filter_cons, h1, h2, ih2]

theorem hexDecode_hexEncode (l : List Nat) (h : ∀ b ∈ l, b < 256) :
    hexDecode (hexEncode l) = Except.ok l := by
  induction l with
  | nil => rfl
  | cons b rest ih =>
    have hb := h b (by simp)
    have ih2 := ih (fun x hx => h x (by simp [hx]))
    rw [hexEncode_cons]
    simp [hexDecode, fromHexChar_hexDigit (b / 16) (by omega),
      fromHexChar_hexDigit (b % 16) (by omega), ih2]
    omega

theorem hexDecode_ok_of_even : ∀ s : List Char, s.length % 2 = 0 →
    (∀ c ∈ s, (fromHexChar c).isSome) →
    ∃ ds, hexDecode s = Except.ok ds ∧ ds.length = s.length / 2 := by
  intro s
  induction s using hexDecode.induct with
  | case1 => intro _ _; exact ⟨[], rfl, rfl⟩
  | case2 c hc => intro hev _; simp at hev
  | case3 c v hc => intro hev _; simp at hev
  | case4 p q rest hp =>
    intro _ hv
    have h := hv p (by simp)
    rw [hp] at h
    simp at h
  | case5 p q rest a hp hq =>
    intro _ hv
    have h := hv q (by simp)
    rw [hq] at h
    simp at h
  | case6 p q rest a hp b hq ds hds ih =>
    intro hev hv
    obtain ⟨ds2, hok, hlen⟩ := ih (by simp at hev ⊢; omega) (fun c hc => hv c (by simp [hc]))
    refine ⟨(a * 16 + b) :: ds2, ?_, ?_⟩
    · simp [hexDecode, hp, hq, hok]
    · simp [hlen]
      omega
  | case7 p q rest a hp b hq e hde ih =>
    intro hev hv
    obtain ⟨ds2, hok, _⟩ := ih (by simp at hev ⊢; omega) (fun c hc => hv c (by simp [hc]))
    rw [hde] at hok
    exact absurd hok (by simp)

theorem hexDecode_err_of_odd : ∀ s : List Char, s.length % 2 = 1 →
    (∀ c ∈ s, (fromHexChar c).isSome) →
    hexDecode s = Except.error GoError.hexErrLength := by
  intro s
  induction s using hexDecode.induct with
  | case1 => intro hev _; simp at hev
  | case2 c hc =>
    intro _ hv
    have h := hv c (by simp)
    rw [hc] at h
    simp at h
  | case3 c v hc => intro _ _; simp [hexDecode, hc]
  | case4 p q rest hp =>
    intro _ hv
    have h := hv p (by simp)
    rw [hp] at h
    simp at h
  | case5 p q rest a hp hq =>
    intro _ hv
    have h := hv q (by simp)
    rw [hq] at h
    simp at h
  | case6 p q rest a hp b hq ds hds ih =>
    intro hev hv
    have h := ih (by simp at hev ⊢; omega) (fun c hc => hv c (by simp [hc]))
    rw [hds] at h
    exact absurd h (by simp)
  | case7 p q rest a hp b hq e hde ih =>
    intro hev hv
    have h := ih (by simp at hev ⊢; omega) (fun c hc => hv c (by simp [hc]))
    rw [hde] at h
    injection h with e2
    subst e2
    simp [hexDecode, hp, hq, hde]

theorem hexDecode_err_of_invalid : ∀ s : List Char,
    (∃ c ∈ s, (fromHexChar c).isNone) →
    ∃ b, hexDecode s = Except.error (GoError.hexInvalidByte b) := by
  intro s
  induction s using hexDecode.induct with
  | case1 => intro h; simp at h
  | case2 c hc => intro _; exact ⟨c, by simp [hexDecode, hc]⟩
  | case3 c v hc =>
    intro h
    obtain ⟨d, hd, hnone⟩ := h
    simp at hd
    subst hd
    rw [hc] at hnone
    simp at hnone
  | case4 p q rest hp => intro _; exact ⟨p, by simp [hexDecode, hp]⟩
  | case5 p q rest a hp hq => intro _; exact ⟨q, by simp [hexDecode, hp, hq]⟩
  | case6 p q rest a hp b hq ds hds ih =>
    intro h
    obtain ⟨d, hd, hnone⟩ := h
    simp at hd
    rcases hd with hd | hd | hd
    · subst hd; rw [hp] at hnone; simp at hnone
    · subst hd; rw [hq] at hnone; simp at hnone
    · obtain ⟨b2, hb2⟩ := ih ⟨d, hd, hnone⟩
      rw [hds] at hb2
      exact absurd hb2 (by simp)
  | case7 p q rest a hp b hq e hde ih =>
    intro h
    obtain ⟨d, hd, hnone⟩ := h
    simp at hd
    rcases hd with hd | hd | hd
    · subst hd; rw [hp] at hnone; simp at hnone
    · subst hd; rw [hq] at hnone; simp at hnone
    · obtain ⟨b2, hb2⟩ := ih ⟨d, hd, hnone⟩
      rw [hde] at hb2
      injection hb2 with e2
      subst e2
      exact ⟨b2, by simp [hexDecode, hp, hq, hde]⟩

theorem decomp16 (u : List Nat) (h : u.length = 16) :
    u.take 4 ++ ((u.drop 4).take 2 ++ ((u.drop 6).take 2
      ++ ((u.drop 8).take 2 ++ (u.drop 10).take 6))) = u := by
  have h10 : (u.drop 10).take 6 = u.drop 10 := List.take_of_length_le (by simp [h])
  rw [h10]
  have e8 : (u.drop 8).take 2 ++ u.drop 10 = u.drop 8 := by
    have h2 := List.take_append_drop 2 (u.drop 8)
    rw [List.drop_drop] at h2
    norm_num at h2
    exact h2
  rw [e8]
  have e6 : (u.drop 6).take 2 ++ u.drop 8 = u.drop 6 := by
    have h2 := List.take_append_drop 2 (u.drop 6)
    rw [List.drop_drop] at h2
    norm_num at h2
    exact h2
  rw [e6]
  have e4 : (u.drop 4).take 2 ++ u.drop 6 = u.drop 4 := by
    have h2 := List.take_append_drop 2 (u.drop 4)
    rw [List.drop_drop] at h2
    norm_num at h2
    exact h2
  rw [e4]
  exact List.take_append_drop 4 u

theorem stripDashes_uuidString (u : List Nat) (hu : ValidUUID u) :
    stripDashes (uuidString u) = hexEncode u := by
  obtain ⟨hlen, hb⟩ := hu
  have sub1 : ∀ x ∈ u.take 4, x < 256 := fun x hx => hb x (List.take_subset 4 u hx)
  have sub2 : ∀ x ∈ (u.drop 4).take 2, x < 256 :=
    fun x hx => hb x (List.drop_subset 4 u (List.take_subset 2 _ hx))
  have sub3 : ∀ x ∈ (u.drop 6).take 2, x < 256 :=
    fun x hx => hb x (List.drop_subset 6 u (List.take_subset 2 _ hx))
  have sub4 : ∀ x ∈ (u.drop 8).take 2, x < 256 :=
    fun x hx => hb x (List.drop_subset 8 u (List.take_subset 2 _ hx))
  have sub5 : ∀ x ∈ (u.drop 10).take 6, x < 256 :=
    fun x hx => hb x (List.drop_subset 10 u (List.take_subset 6 _ hx))
  unfold uuidString
  rw [stripDashes_append, stripDashes_append, stripDashes_append, stripDashes_append,
    stripDashes_append, stripDashes_append, stripDashes_append, stripDashes_append,
    stripDashes_dash]
  rw [stripDashes_hexEncode _ sub1, stripDashes_hexEncode _ sub2, stripDashes_hexEncode _ sub3,
    stripDashes_hexEncode _ sub4, stripDashes_hexEncode _ sub5]
  simp only [List.append_nil, List.append_assoc]
  rw [← hexEncode_append, ← hexEncode_append, ← hexEncode_append, ← hexEncode_append]
  rw [decomp16 u hlen]

end Simpleuuid

namespace Simpleuuid

/-- C1: for every time `t` (given by its int64 Unix-nanosecond count) and
every outcome of the three random draws, generating an identifier with
`NewTime(t)` and decoding it with `Time()` yields the instant `t`
truncated — not rounded — to 100-nanosecond resolution: the decoded
instant is `100 * (t / 100)` with Go's truncating division, which equals
`t` minus its sub-100ns remainder, a remainder of magnitude below 100. -/
theorem C1_newTime_time_truncation (ns : Int) (h : int64Range ns) (r13 r16 r32 : Nat) :
    timeUnixNano (NewTime ns r13 r16 r32) = 100 * Int.tdiv ns 100
    ∧ 100 * Int.tdiv ns 100 = ns - Int.tmod ns 100
    ∧ (Int.tmod ns 100).natAbs < 100 := by
  have hdec := Nanoseconds_NewTime ns h r13 r16 r32
  have hid := Int.tdiv_add_tmod ns 100
  have hlt := Int.tmod_lt_of_pos ns (b := 100) (by norm_num)
  have hgt := neg_lt_tmod ns (b := 100) (by norm_num)
  refine ⟨?_, by omega, by omega⟩
  rw [timeUnixNano_eq, hdec]
  ring

/-- C1 witness: the round trip evaluated at the instant
2013-04-20T11:40:00.000000057Z with concrete random draws. -/
theorem C1_newTime_time_truncation_witness :
    timeUnixNano (NewTime 1366458000000000057 3 4 5) = 100 * Int.tdiv 1366458000000000057 100
    ∧ 100 * Int.tdiv 1366458000000000057 100
        = 1366458000000000057 - Int.tmod 1366458000000000057 100
    ∧ (Int.tmod 1366458000000000057 100).natAbs < 100 :=
  C1_newTime_time_truncation 1366458000000000057 (by decide) 3 4 5

/-- C2: `Compare(a, b)` on 16-byte identifiers equals the spec's
comparison (primary key `Nanoseconds()` ascending, ties broken by
unsigned byte-wise comparison of bytes 8 through 15), and the order it
induces is total: the result is always one of -1, 0, 1, it is reflexive
(`Compare a a = 0`), antisymmetric (`Compare b a = -Compare a b`), and
transitive on the non-greater relation. -/
theorem C2_compare_time_then_bytes_total :
    (∀ a b : List Nat, ValidUUID a → ValidUUID b → Compare a b = compareSpec a b)
    ∧ (∀ a b : List Nat, Compare a b = -1 ∨ Compare a b = 0 ∨ Compare a b = 1)
    ∧ (∀ a : List Nat, Compare a a = 0)
    ∧ (∀ a b : List Nat, Compare b a = -Compare a b)
    ∧ (∀ a b c : List Nat, Compare a b ≤ 0 → Compare b c ≤ 0 → Compare a c ≤ 0) :=
  ⟨Compare_eq_spec, Compare_range, Compare_refl, Compare_antisym,
    fun _ _ _ => Compare_trans_le⟩

/-- C2 witness: the comparison contract evaluated on the RFC 4122 URL
namespace identifier and the all-zero identifier. -/
theorem C2_compare_time_then_bytes_total_witness :
    Compare [0x6b, 0xa7, 0xb8, 0x11, 0x9d, 0xad, 0x11, 0xd1,
        0x80, 0xb4, 0x00, 0xc0, 0x4f, 0xd4, 0x30, 0xc8]
      (List.replicate 16 0)
      = compareSpec [0x6b, 0xa7, 0xb8, 0x11, 0x9d, 0xad, 0x11, 0xd1,
        0x80, 0xb4, 0x00, 0xc0, 0x4f, 0xd4, 0x30, 0xc8] (List.replicate 16 0)
    ∧ (Compare (List.replicate 16 0)
        [0x6b, 0xa7, 0xb8, 0x11, 0x9d, 0xad, 0x11, 0xd1,
          0x80, 0xb4, 0x00, 0xc0, 0x4f, 0xd4, 0x30, 0xc8] = -1
      ∨ Compare (List.replicate 16 0)
        [0x6b, 0xa7, 0xb8, 0x11, 0x9d, 0xad, 0x11, 0xd1,
          0x80, 0xb4, 0x00, 0xc0, 0x4f, 0xd4, 0x30, 0xc8] = 0
      ∨ Compare (List.replicate 16 0)
        [0x6b, 0xa7, 0xb8, 0x11, 0x9d, 0xad, 0x11, 0xd1,
          0x80, 0xb4, 0x00, 0xc0, 0x4f, 0xd4, 0x30, 0xc8] = 1)
    ∧ Compare (List.replicate 16 0) (List.replicate 16 0) = 0
    ∧ Compare (List.replicate 16 0)
        [0x6b, 0xa7, 0xb8, 0x11, 0x9d, 0xad, 0x11, 0xd1,
          0x80, 0xb4, 0x00, 0xc0, 0x4f, 0xd4, 0x30, 0xc8]
        = -Compare [0x6b, 0xa7, 0xb8, 0x11, 0x9d, 0xad, 0x11, 0xd1,
          0x80, 0xb4, 0x00, 0xc0, 0x4f, 0xd4, 0x30, 0xc8] (List.replicate 16 0)
    ∧ Compare [0x6b, 0xa7, 0xb8, 0x11, 0x9d, 0xad, 0x11, 0xd1,
        0x80, 0xb4, 0x00, 0xc0, 0x4f, 0xd4, 0x30, 0xc8] (List.replicate 16 0) ≤ 0 :=
  ⟨C2_compare_time_then_bytes_total.1 _ _ (by decide) (by decide),
    C2_compare_time_then_bytes_total.2.1 _ _,
    C2_compare_time_then_bytes_total.2.2.1 _,
    C2_compare_time_then_bytes_total.2.2.2.1 _ _,
    C2_compare_time_then_bytes_total.2.2.2.2 _
      [0x6b, 0xa7, 0xb8, 0x11, 0x9d, 0xad, 0x11, 0xd1,
        0x80, 0xb4, 0x00, 0xc0, 0x4f, 0xd4, 0x30, 0xc8] _ (by decide) (by decide)⟩

/-- C3 counterexample: the claim's formulas fail as stated.  At
`ns = -150`, Go's truncating division gives `fromUnixNano(-150) =
gregorianEpoch - 1`, not the floor-division value `gregorianEpoch - 2`;
and at `uuidTime = 2^59` the product `(uuidTime - gregorianEpoch) * 100`
overflows int64, so `toUnixNano` returns the wrapped value, not the exact
product. -/
theorem C3_floor_division_counterexample :
    fromUnixNano (-150) ≠ Int.fdiv (-150) 100 + gregorianEpoch
    ∧ toUnixNano (2 ^ 59) ≠ ((2 : Int) ^ 59 - gregorianEpoch) * 100 :=
  ⟨by decide, by decide⟩

/-- C3 (amended): for every int64 `ns`, `fromUnixNano(ns)` equals
`ns / 100 + 0x01B21DD213814000` with division truncated toward zero (Go
semantics), and `toUnixNano(t)` equals `(t - 0x01B21DD213814000) * 100`
whenever that product fits in int64. -/
theorem C3_time_conversions (ns t : Int) (h : int64Range ns)
    (hp : int64Range ((t - gregorianEpoch) * 100)) :
    fromUnixNano ns = Int.tdiv ns 100 + gregorianEpoch
    ∧ toUnixNano t = (t - gregorianEpoch) * 100 :=
  ⟨fromUnixNano_eq ns h, by unfold toUnixNano; exact wrap64_eq_self hp⟩

/-- C3 witness: the conversions evaluated at `ns = -150` and at the
uuid time seven ticks past the Unix epoch. -/
theorem C3_time_conversions_witness :
    fromUnixNano (-150) = Int.tdiv (-150) 100 + gregorianEpoch
    ∧ toUnixNano (gregorianEpoch + 7) = (gregorianEpoch + 7 - gregorianEpoch) * 100 :=
  C3_time_conversions (-150) (gregorianEpoch + 7) (by decide) (by decide)

/-- C4: parsing the canonical string of any 16-byte identifier returns an
identifier with identical bytes; `NewString` sees only the hyphen-stripped
text, so hyphens are accepted in any position and quantity; and any input
whose non-hyphen characters are exactly 32 hex digits parses
successfully. -/
theorem C4_newString_string_roundtrip :
    (∀ u : List Nat, ValidUUID u → NewString (uuidString u) = Except.ok u)
    ∧ (∀ s : List Char, NewString s = NewString (stripDashes s))
    ∧ (∀ s : List Char, (stripDashes s).length = 32 →
        (∀ c ∈ stripDashes s, (fromHexChar c).isSome) →
        ∃ u, NewString s = Except.ok u) := by
  refine ⟨?_, ?_, ?_⟩
  · intro u hu
    rw [NewString_def, stripDashes_uuidString u hu, hexEncode_length, hu.1]
    rw [if_neg (by norm_num [decodedLen, size])]
    exact hexDecode_hexEncode u hu.2
  · intro s
    rw [NewString_def, NewString_def, stripDashes_idem]
  · intro s h32 hv
    obtain ⟨ds, hok, _⟩ := hexDecode_ok_of_even (stripDashes s) (by omega) hv
    rw [NewString_def, if_neg (by simp [decodedLen, size, h32]), hok]
    exact ⟨ds, rfl⟩

/-- C4 witness: the round trip on the RFC 4122 URL namespace identifier,
hyphen insensitivity on a small input, and success of an input with
hyphens in non-canonical positions. -/
theorem C4_newString_string_roundtrip_witness :
    NewString (uuidString [0x6b, 0xa7, 0xb8, 0x11, 0x9d, 0xad, 0x11, 0xd1,
        0x80, 0xb4, 0x00, 0xc0, 0x4f, 0xd4, 0x30, 0xc8])
      = Except.ok [0x6b, 0xa7, 0xb8, 0x11, 0x9d, 0xad, 0x11, 0xd1,
        0x80, 0xb4, 0x00, 0xc0, 0x4f, 0xd4, 0x30, 0xc8]
    ∧ NewString ['-', '0', '-', '1', 'a', 'b']
        = NewString (stripDashes ['-', '0', '-', '1', 'a', 'b'])
    ∧ ∃ u, NewString ('-' :: '-' :: List.replicate 32 'f') = Except.ok u :=
  ⟨C4_newString_string_roundtrip.1 _ (by decide),
    C4_newString_string_roundtrip.2.1 _,
    C4_newString_string_roundtrip.2.2 _ (by decide) (by decide)⟩

/-- C5 counterexample: a 33-character hex string is not 32 hex digits,
yet `NewString` does not fail with the length-mismatch error as the claim
requires: `hex.DecodedLen(33) = 16` passes the length check and the
decoder then fails with the odd-length decode error. -/
theorem C5_oddlength_error_counterexample :
    NewString (List.replicate 33 '0') = Except.error GoError.hexErrLength
    ∧ GoError.hexErrLength ≠ GoError.parseErrorLength :=
  ⟨by decide, by decide⟩

/-- C5 (amended): `NewString` fails with the length-mismatch error
exactly when the hyphen-stripped text has `len / 2 ≠ 16` (length neither
32 nor 33); a 33-character all-hex input passes the length check but
fails with the odd-length decode error; exactly 32 hex digits succeed
with a 16-byte result; and text of accepted length containing an invalid
hex digit fails with an invalid-byte decode error. -/
theorem C5_newString_error_classification (s : List Char) :
    ((stripDashes s).length / 2 ≠ 16 → NewString s = Except.error GoError.parseErrorLength)
    ∧ ((stripDashes s).length = 32 → (∀ c ∈ stripDashes s, (fromHexChar c).isSome) →
        ∃ u, NewString s = Except.ok u ∧ u.length = 16)
    ∧ ((stripDashes s).length = 33 → (∀ c ∈ stripDashes s, (fromHexChar c).isSome) →
        NewString s = Except.error GoError.hexErrLength)
    ∧ ((stripDashes s).length / 2 = 16 → (∃ c ∈ stripDashes s, (fromHexChar c).isNone) →
        ∃ b, NewString s = Except.error (GoError.hexInvalidByte b)) := by
  refine ⟨?_, ?_, ?_, ?_⟩
  · intro h
    rw [NewString_def, if_pos (by simp [decodedLen, size]; omega)]
  · intro h32 hv
    obtain ⟨ds, hok, hdslen⟩ := hexDecode_ok_of_even (stripDashes s) (by omega) hv
    rw [NewString_def, if_neg (by simp [decodedLen, size, h32]), hok]
    exact ⟨ds, rfl, by omega⟩
  · intro h33 hv
    rw [NewString_def, if_neg (by simp [decodedLen, size, h33])]
    exact hexDecode_err_of_odd (stripDashes s) (by omega) hv
  · intro h16 hinv
    obtain ⟨b, hb⟩ := hexDecode_err_of_invalid (stripDashes s) hinv
    rw [NewString_def, if_neg (by simp [decodedLen, size]; omega), hb]
    exact ⟨b, rfl⟩

/-- C5 witness: one input for each branch of the classification. -/
theorem C5_newString_error_classification_witness :
    NewString ['0', '0', '0', '0'] = Except.error GoError.parseErrorLength
    ∧ (∃ u, NewString (List.replicate 32 '0') = Except.ok u ∧ u.length = 16)
    ∧ NewString (List.replicate 33 'a') = Except.error GoError.hexErrLength
    ∧ ∃ b, NewString ('g' :: List.replicate 31 '0') = Except.error (GoError.hexInvalidByte b) :=
  ⟨(C5_newString_error_classification _).1 (by decide),
    (C5_newString_error_classification _).2.1 (by decide) (by decide),
    (C5_newString_error_classification _).2.2.1 (by decide) (by decide),
    (C5_newString_error_classification _).2.2.2 (by decide) ⟨'g', by decide, by decide⟩⟩

/-- C6: `NewBytes` succeeds exactly on 16-byte inputs; on success
`Bytes()` of the result equals the input, and on any other length it
fails with the length-mismatch error. -/
theorem C6_newBytes_length_check (bs : List Nat) :
    (bs.length = 16 → ∃ u, NewBytes bs = Except.ok u ∧ Bytes u = bs)
    ∧ (bs.length ≠ 16 → NewBytes bs = Except.error GoError.parseErrorLength) := by
  constructor
  · intro h
    refine ⟨bs.take size, ?_, ?_⟩
    · unfold NewBytes size at *
      rw [if_neg (by omega)]
    · unfold Bytes size
      exact List.take_of_length_le (by omega)
  · intro h
    unfold NewBytes size at *
    rw [if_pos (by omega)]

/-- C6 witness: a 16-byte input round trips and a 1-byte input fails. -/
theorem C6_newBytes_length_check_witness :
    (∃ u, NewBytes (List.replicate 16 0) = Except.ok u ∧ Bytes u = List.replicate 16 0)
    ∧ NewBytes [0] = Except.error GoError.parseErrorLength :=
  ⟨(C6_newBytes_length_check (List.replicate 16 0)).1 (by decide),
    (C6_newBytes_length_check [0]).2 (by decide)⟩

/-- C7: `NewTimeSalt` (modelled from the spec, see its definition) fails
with the salt-length error for every salt that is not exactly 8 bytes;
two calls with the same 8-byte salt whose times agree after truncation to
100ns produce identifiers that are byte-identical from offset 8 onward
and compare as equal, while calls whose truncated timestamps differ still
order by time under `Compare`. -/
theorem C7_newTimeSalt_contract :
    (∀ (ns : Int) (salt : List Nat), salt.length ≠ 8 →
        NewTimeSalt ns salt = Except.error GoError.saltErrorLength)
    ∧ (∀ (ns1 ns2 : Int) (salt u1 u2 : List Nat), int64Range ns1 → int64Range ns2 →
        NewTimeSalt ns1 salt = Except.ok u1 → NewTimeSalt ns2 salt = Except.ok u2 →
        (Int.tdiv ns1 100 = Int.tdiv ns2 100 →
          u1.drop 8 = u2.drop 8 ∧ Compare u1 u2 = 0)
        ∧ (Int.tdiv ns1 100 < Int.tdiv ns2 100 → Compare u1 u2 = -1)) := by
  constructor
  · intro ns salt hs
    unfold NewTimeSalt
    rw [if_pos hs]
  · intro ns1 ns2 salt u1 u2 h1 h2 hok1 hok2
    by_cases hs : salt.length = 8
    · unfold NewTimeSalt at hok1 hok2
      rw [if_neg (by omega)] at hok1 hok2
      injection hok1 with e1
      injection hok2 with e2
      subst e1
      subst e2
      constructor
      · intro heq
        have hsame := timeBytes_congr h1 h2 heq
        constructor
        · rw [List.append_assoc, List.append_assoc,
            drop8_timeBytes_append, drop8_timeBytes_append]
        · rw [hsame]
          exact Compare_refl _
      · intro hlt
        have d1 := Nanoseconds_timeBytes ns1 h1
          (putUint16 (beUint16 (salt.take 2) &&& 0x1fff ||| variant) ++ (salt.drop 2).take 6)
        have d2 := Nanoseconds_timeBytes ns2 h2
          (putUint16 (beUint16 (salt.take 2) &&& 0x1fff ||| variant) ++ (salt.drop 2).take 6)
        rw [Compare_def, List.append_assoc, List.append_assoc]
        rw [d1, d2, if_neg (by omega), if_pos (by omega)]
    · unfold NewTimeSalt at hok1
      rw [if_pos hs] at hok1
      exact absurd hok1 (by simp)

/-- C7 witness: a 3-byte salt is rejected; with the 8-byte salt
`"AAAAAAAB"`, the identifiers for times 0ns and 5000ns share their tail
and the earlier one compares less. -/
theorem C7_newTimeSalt_contract_witness :
    NewTimeSalt 0 [1, 2, 3] = Except.error GoError.saltErrorLength
    ∧ Compare [0x13, 0x81, 0x40, 0x00, 0x1d, 0xd2, 0x11, 0xb2,
        0x81, 0x41, 65, 65, 65, 65, 65, 66]
      [0x13, 0x81, 0x40, 0x32, 0x1d, 0xd2, 0x11, 0xb2,
        0x81, 0x41, 65, 65, 65, 65, 65, 66] = -1 :=
  ⟨C7_newTimeSalt_contract.1 0 [1, 2, 3] (by decide),
    ((C7_newTimeSalt_contract.2 0 5000 [65, 65, 65, 65, 65, 65, 65, 66]
      [0x13, 0x81, 0x40, 0x00, 0x1d, 0xd2, 0x11, 0xb2, 0x81, 0x41, 65, 65, 65, 65, 65, 66]
      [0x13, 0x81, 0x40, 0x32, 0x1d, 0xd2, 0x11, 0xb2, 0x81, 0x41, 65, 65, 65, 65, 65, 66]
      (by decide) (by decide) (by decide) (by decide)).2 (by decide))⟩

/-- C8 counterexample: the claim fails for timestamps closer together
than the 100ns resolution.  With `t1 = 0 < t2 = 50` (nanoseconds), both
identifiers encode the same uuid time, the tie is broken by the random
tail bytes, and with clock draw 1 for the first and 0 for the second,
`Compare` reports greater, not less. -/
theorem C8_subresolution_counterexample :
    (0 : Int) < 50 ∧ Compare (NewTime 0 1 0 0) (NewTime 50 0 0 0) = 1 :=
  ⟨by norm_num, by decide⟩

/-- C8 (amended): for all pairs of timestamps whose truncations to 100ns
differ, `Compare` on the generated identifiers reports less, regardless
of the random tail bytes chosen for each identifier. -/
theorem C8_compare_truncated_times (ns1 ns2 : Int) (h1 : int64Range ns1) (h2 : int64Range ns2)
    (hlt : Int.tdiv ns1 100 < Int.tdiv ns2 100) (r13 r16 r32 s13 s16 s32 : Nat) :
    Compare (NewTime ns1 r13 r16 r32) (NewTime ns2 s13 s16 s32) = -1 := by
  rw [Compare_def, Nanoseconds_NewTime ns1 h1, Nanoseconds_NewTime ns2 h2]
  rw [if_neg (by omega), if_pos (by omega)]

/-- C8 witness: identifiers for 0ns and 100ns with unrelated random
tails compare as less. -/
theorem C8_compare_truncated_times_witness :
    Compare (NewTime 0 1 2 3) (NewTime 100 4 5 6) = -1 :=
  C8_compare_truncated_times 0 100 (by decide) (by decide) (by decide) 1 2 3 4 5 6

/-- C9: contrary to the claim that every failure is returned as an error
value and no input panics, `UnmarshalJSON` slices `b[1:len(b)-1]` without
a bounds check, so the one-byte input `"5"` (what `encoding/json` passes
for the document value `5`) and the empty input both panic with a
slice-bounds fault instead of returning an error. -/
theorem C9_unmarshalJSON_panics :
    UnmarshalJSON ['5'] = GoOutcome.panicked
    ∧ UnmarshalJSON [] = GoOutcome.panicked :=
  ⟨by decide, by decide⟩

/-- C10: `Compare` equality does not imply byte equality: the all-zero
identifier and the identifier differing from it only in the version
nibble (byte 6 set to 0x10) are distinct 16-byte identifiers with the
same decoded `Nanoseconds()` and the same bytes 8 through 15, and
`Compare` returns equal on them. -/
theorem C10_compare_equal_distinct_bytes :
    ∃ a b : List Nat, ValidUUID a ∧ ValidUUID b ∧ a ≠ b
      ∧ Nanoseconds a = Nanoseconds b ∧ a.drop 8 = b.drop 8 ∧ Compare a b = 0 := by
  refine ⟨List.replicate 16 0,
    [0, 0, 0, 0, 0, 0, 0x10, 0, 0, 0, 0, 0, 0, 0, 0, 0], ?_, ?_, ?_, ?_, ?_, ?_⟩ <;> decide

end Simpleuuid
